import Mathlib

/-!
Verification of the snapshot-service specification against a shallow
embedding of the repository's Python sources.

The embedding covers:
* `src/src/catalog.py` — the Version Catalog (SQLite `versions` table,
  `record_deploy`, `get_latest`, `rollback`);
* `src/src/auditor.py` — the Audit Ledger (`ArchiveAuditor.register`,
  `ArchiveAuditor.verify`, the `snapshots` and `audit_log` tables);
* `src/snapshot.py` — manifest building (`snapshot_directory`) and
  verification (`verify_snapshot`);
* `src/src/snapshot.py` — archive packaging (`create_snapshot`).

Modelling conventions:
* A SQLite table is a Lean list of rows; `INSERT OR REPLACE` removes the
  rows conflicting on the unique key and appends the fresh row.
* `datetime('now')` timestamps are modelled by a strictly increasing
  `Nat` counter held in the state, so `ORDER BY deployed_at DESC LIMIT 1`
  is the maximum of that counter over the filtered rows.
* File contents are `List Nat` (byte strings); SHA-256 is modelled by a
  deterministic fixed-width digest function `sha256Bytes` (the claims
  depend only on determinism of the digest, never on collision facts).
* A directory tree is the list of regular files produced by the sorted
  `rglob` walk; each file carries its path segments, its bytes, and a
  `readable` flag (`readable = false` makes `open`/`sha256_file` raise
  `PermissionError`/`OSError`, which the embedding surfaces as
  `Except.error`).
-/

namespace SnapSvc

/-! ### Version Catalog (`src/src/catalog.py`) -/

/-- Status column of the `versions` table: `'active'`, `'superseded'`,
or `'rolled-back'`. -/
inductive VStatus where
  | active
  | superseded
  | rolledBack
deriving DecidableEq

/-- One row of the `versions` table. -/
structure VRow where
  id : Nat
  service : String
  version : String
  environment : String
  commit_sha : String
  changelog : String
  deployed_at : Nat
  status : VStatus
deriving DecidableEq

/-- The catalog database: the `versions` rows plus the autoincrement id
counter and the timestamp counter. -/
structure CatalogState where
  nextId : Nat
  nextTime : Nat
  rows : List VRow
deriving DecidableEq

/-- Fresh database created by `get_db` (empty `versions` table). -/
def initCatalog : CatalogState := ⟨0, 0, []⟩

/-- Row predicate of `WHERE service=? AND environment=? AND status='active'`. -/
def activeFor (s e : String) (r : VRow) : Bool :=
  decide (r.service = s) && decide (r.environment = e) &&
    decide (r.status = VStatus.active)

/-- Row predicate of `WHERE service=? AND environment=? AND status='superseded'`. -/
def supersededFor (s e : String) (r : VRow) : Bool :=
  decide (r.service = s) && decide (r.environment = e) &&
    decide (r.status = VStatus.superseded)

/-- Effect on one row of
`UPDATE versions SET status='superseded' WHERE service=? AND environment=? AND status='active'`. -/
def supersedeRow (s e : String) (r : VRow) : VRow :=
  if r.service = s ∧ r.environment = e ∧ r.status = VStatus.active then
    { r with status := VStatus.superseded }
  else r

/-- Row predicate of the `UNIQUE(service, version, environment)` conflict
used by `INSERT OR REPLACE`. -/
def sameTriple (s v e : String) (r : VRow) : Bool :=
  decide (r.service = s) && decide (r.version = v) && decide (r.environment = e)

/-- `record_deploy(service, version, commit_sha, changelog, environment)`:
mark the previous active row superseded, then `INSERT OR REPLACE` a fresh
`active` row (the replace deletes any row conflicting on
`UNIQUE(service, version, environment)`).  Returns `lastrowid` and the new
database state. -/
def record_deploy (st : CatalogState) (s v c l e : String) : Nat × CatalogState :=
  let rows1 := st.rows.map (supersedeRow s e)
  let newRow : VRow := ⟨st.nextId, s, v, e, c, l, st.nextTime, VStatus.active⟩
  let rows2 := rows1.filter (fun r => !(sameTriple s v e r)) ++ [newRow]
  (st.nextId, ⟨st.nextId + 1, st.nextTime + 1, rows2⟩)

/-- `ORDER BY deployed_at DESC LIMIT 1` over a list of rows: the row with
the greatest `deployed_at` (timestamps are distinct in every reachable
state, so the tie branch is immaterial). -/
def maxByTime : List VRow → Option VRow
  | [] => none
  | r :: rest =>
    match maxByTime rest with
    | none => some r
    | some m => some (if m.deployed_at > r.deployed_at then m else r)

/-- `get_latest(service, environment)`: the current `active` row, newest
first. -/
def get_latest (st : CatalogState) (s e : String) : Option VRow :=
  maxByTime (st.rows.filter (activeFor s e))

/-- `UPDATE versions SET status=? WHERE id=?`. -/
def updateStatus (rows : List VRow) (i : Nat) (newStatus : VStatus) : List VRow :=
  rows.map (fun r => if r.id = i then { r with status := newStatus } else r)

/-- `rollback(service, environment)`: fail (`None`) if there is no active
row or no superseded row; otherwise set the most recently superseded row
back to `active` and the former active row to `rolled-back`, returning the
restored row. -/
def rollback (st : CatalogState) (s e : String) : Option VRow × CatalogState :=
  match get_latest st s e with
  | none => (none, st)
  | some cur =>
    match maxByTime (st.rows.filter (supersededFor s e)) with
    | none => (none, st)
    | some prev =>
      let rowsB := updateStatus (updateStatus st.rows prev.id VStatus.active)
        cur.id VStatus.rolledBack
      (some prev, ⟨st.nextId, st.nextTime, rowsB⟩)

/-- One external call against the catalog. -/
inductive CatOp where
  | deploy (service version commit_sha changelog environment : String)
  | rollbackOp (service environment : String)

/-- State transition of a single catalog call. -/
def catStep (st : CatalogState) (op : CatOp) : CatalogState :=
  match op with
  | .deploy s v c l e => (record_deploy st s v c l e).2
  | .rollbackOp s e => (rollback st s e).2

/-- Run a sequence of calls from the empty catalog. -/
def runCatalog (ops : List CatOp) : CatalogState :=
  ops.foldl catStep initCatalog

/-! ### Catalog lemmas -/

theorem activeFor_eq_true (s e : String) (r : VRow) :
    activeFor s e r = true ↔
      r.service = s ∧ r.environment = e ∧ r.status = VStatus.active := by
  simp [activeFor, and_assoc]

theorem supersededFor_eq_true (s e : String) (r : VRow) :
    supersededFor s e r = true ↔
      r.service = s ∧ r.environment = e ∧ r.status = VStatus.superseded := by
  simp [supersededFor, and_assoc]

theorem supersedeRow_id (s e : String) (r : VRow) :
    (supersedeRow s e r).id = r.id := by
  unfold supersedeRow; split <;> rfl

theorem supersedeRow_service (s e : String) (r : VRow) :
    (supersedeRow s e r).service = r.service := by
  unfold supersedeRow; split <;> rfl

theorem supersedeRow_environment (s e : String) (r : VRow) :
    (supersedeRow s e r).environment = r.environment := by
  unfold supersedeRow; split <;> rfl

theorem activeFor_supersedeRow (s e : String) (r : VRow) :
    activeFor s e (supersedeRow s e r) = false := by
  unfold supersedeRow
  split
  · rename_i h
    simp [activeFor]
  · rename_i h
    rw [Bool.eq_false_iff]
    intro hc
    exact h ((activeFor_eq_true s e r).mp hc)

theorem activeFor_supersedeRow_ne (s e s' e' : String)
    (h : ¬(s = s' ∧ e = e')) (r : VRow) :
    activeFor s' e' (supersedeRow s e r) = activeFor s' e' r := by
  unfold supersedeRow
  split
  · rename_i hc
    obtain ⟨hs, he, hst⟩ := hc
    have hfalse : ¬(r.service = s' ∧ r.environment = e') := by
      intro ⟨h1, h2⟩
      exact h ⟨hs ▸ h1, he ▸ h2⟩
    rw [Bool.eq_iff_iff]
    constructor
    · intro hx
      obtain ⟨h1, h2, _⟩ := (activeFor_eq_true s' e' _).mp hx
      exact absurd ⟨h1, h2⟩ hfalse
    · intro hx
      obtain ⟨h1, h2, _⟩ := (activeFor_eq_true s' e' r).mp hx
      exact absurd ⟨h1, h2⟩ hfalse
  · rfl

theorem maxByTime_mem {l : List VRow} {r : VRow} (h : maxByTime l = some r) :
    r ∈ l := by
  induction l with
  | nil => cases h
  | cons a t ih =>
    rw [maxByTime] at h
    cases ht : maxByTime t with
    | none =>
      rw [ht] at h
      have ha : a = r := by simpa using h
      subst ha
      exact List.mem_cons_self a t
    | some m =>
      rw [ht] at h
      have h2 : (if m.deployed_at > a.deployed_at then m else a) = r := by
        simpa using h
      by_cases hgt : m.deployed_at > a.deployed_at
      · rw [if_pos hgt] at h2
        subst h2
        exact List.mem_cons_of_mem a (ih ht)
      · rw [if_neg hgt] at h2
        subst h2
        exact List.mem_cons_self a t

theorem get_latest_spec {st : CatalogState} {s e : String} {cur : VRow}
    (h : get_latest st s e = some cur) :
    cur ∈ st.rows ∧ activeFor s e cur = true := by
  unfold get_latest at h
  have hm := maxByTime_mem h
  exact ⟨(List.mem_filter.mp hm).1, (List.mem_filter.mp hm).2⟩

theorem two_le_countP {α : Type} (p : α → Bool) (l : List α) (a b : α)
    (ha : a ∈ l) (hb : b ∈ l) (hne : a ≠ b)
    (hpa : p a = true) (hpb : p b = true) : 2 ≤ l.countP p := by
  obtain ⟨l1, l2, rfl⟩ := List.append_of_mem hb
  rw [List.countP_append, List.countP_cons_of_pos _ _ hpb]
  rw [List.mem_append, List.mem_cons] at ha
  rcases ha with ha1 | ha2 | ha3
  · have h1 : 0 < l1.countP p := List.countP_pos_iff.mpr ⟨a, ha1, hpa⟩
    omega
  · exact absurd ha2 hne
  · have h2 : 0 < l2.countP p := List.countP_pos_iff.mpr ⟨a, ha3, hpa⟩
    omega

theorem countP_id_nodup {rows : List VRow}
    (hnd : (rows.map VRow.id).Nodup) {r : VRow} (hr : r ∈ rows) :
    rows.countP (fun x => decide (x.id = r.id)) = 1 := by
  induction rows with
  | nil => cases hr
  | cons a t ih =>
    rw [List.map_cons, List.nodup_cons] at hnd
    obtain ⟨hna, hnt⟩ := hnd
    rw [List.mem_cons] at hr
    rcases hr with rfl | hrt
    · have hp : (fun x => decide (x.id = r.id)) r = true := by simp
      rw [List.countP_cons_of_pos (fun x => decide (x.id = r.id)) t hp]
      have hz : t.countP (fun x => decide (x.id = r.id)) = 0 := by
        rw [List.countP_eq_zero]
        intro x hx
        simp only [decide_eq_true_eq]
        intro hid
        exact hna (hid ▸ List.mem_map_of_mem VRow.id hx)
      omega
    · have hne : ¬(a.id = r.id) := by
        intro hid
        exact hna (hid ▸ List.mem_map_of_mem VRow.id hrt)
      have hp : ¬((fun x => decide (x.id = r.id)) a = true) := by
        simpa using hne
      rw [List.countP_cons_of_neg (fun x => decide (x.id = r.id)) t hp]
      exact ih hnt hrt

/-- Well-formedness invariant of every reachable catalog state: row ids are
distinct and below the autoincrement counter, and for every
(service, environment) pair at most one row is `active`. -/
def CatInv (st : CatalogState) : Prop :=
  (st.rows.map VRow.id).Nodup ∧
  (∀ r ∈ st.rows, r.id < st.nextId) ∧
  (∀ s e : String, st.rows.countP (activeFor s e) ≤ 1)

theorem catInv_init : CatInv initCatalog := by
  refine ⟨List.nodup_nil, ?_, ?_⟩
  · intro r hr; cases hr
  · intro s e; simp [initCatalog]

theorem activeFor_eq_false_of_pair {s' e' : String} {r : VRow}
    (hp : ¬(r.service = s' ∧ r.environment = e')) :
    activeFor s' e' r = false := by
  rw [Bool.eq_false_iff]
  intro hc
  obtain ⟨h1, h2, _⟩ := (activeFor_eq_true s' e' r).mp hc
  exact hp ⟨h1, h2⟩

theorem activeFor_eq_false_of_status (s' e' : String) {r : VRow}
    (hst : r.status ≠ VStatus.active) :
    activeFor s' e' r = false := by
  rw [Bool.eq_false_iff]
  intro hc
  exact hst ((activeFor_eq_true s' e' r).mp hc).2.2

theorem record_deploy_snd (st : CatalogState) (s v c l e : String) :
    (record_deploy st s v c l e).2 =
      ⟨st.nextId + 1, st.nextTime + 1,
        (st.rows.map (supersedeRow s e)).filter (fun r => !(sameTriple s v e r)) ++
          [⟨st.nextId, s, v, e, c, l, st.nextTime, VStatus.active⟩]⟩ := rfl

theorem rollback_eq_of_none {st : CatalogState} {s e : String}
    (hcur : get_latest st s e = none) : rollback st s e = (none, st) := by
  unfold rollback
  rw [hcur]

theorem rollback_eq_of_noprev {st : CatalogState} {s e : String} {cur : VRow}
    (hcur : get_latest st s e = some cur)
    (hprev : maxByTime (st.rows.filter (supersededFor s e)) = none) :
    rollback st s e = (none, st) := by
  unfold rollback
  rw [hcur, hprev]

theorem rollback_eq_of_some {st : CatalogState} {s e : String} {cur prev : VRow}
    (hcur : get_latest st s e = some cur)
    (hprev : maxByTime (st.rows.filter (supersededFor s e)) = some prev) :
    rollback st s e =
      (some prev, ⟨st.nextId, st.nextTime,
        updateStatus (updateStatus st.rows prev.id VStatus.active)
          cur.id VStatus.rolledBack⟩) := by
  unfold rollback
  rw [hcur, hprev]

theorem status_update_id (r : VRow) (ns : VStatus) :
    ({ r with status := ns } : VRow).id = r.id := rfl

theorem if_update_id (c : Prop) [Decidable c] (r : VRow) (ns : VStatus) :
    (if c then { r with status := ns } else r).id = r.id := by
  split <;> rfl

theorem updateStatus_map_id (rows : List VRow) (i : Nat) (ns : VStatus) :
    (updateStatus rows i ns).map VRow.id = rows.map VRow.id := by
  unfold updateStatus
  rw [List.map_map]
  apply List.map_congr_left
  intro r _
  show (if r.id = i then { r with status := ns } else r).id = r.id
  split <;> rfl

theorem catInv_deploy (st : CatalogState) (s v c l e : String) (h : CatInv st) :
    CatInv (record_deploy st s v c l e).2 := by
  obtain ⟨hnd, hlt, hone⟩ := h
  rw [record_deploy_snd]
  have hidmap : (st.rows.map (supersedeRow s e)).map VRow.id = st.rows.map VRow.id := by
    rw [List.map_map]
    apply List.map_congr_left
    intro r _
    exact supersedeRow_id s e r
  have hsubA : List.Sublist ((st.rows.map (supersedeRow s e)).filter
      (fun r => !(sameTriple s v e r))) (st.rows.map (supersedeRow s e)) :=
    List.filter_sublist _
  have hAmem : ∀ r ∈ (st.rows.map (supersedeRow s e)).filter
      (fun r => !(sameTriple s v e r)), r.id < st.nextId := by
    intro r hr
    have hr2 := hsubA.mem hr
    obtain ⟨r0, hr0, rfl⟩ := List.mem_map.mp hr2
    rw [supersedeRow_id]
    exact hlt r0 hr0
  refine ⟨?_, ?_, ?_⟩
  · rw [List.map_append, List.nodup_append]
    refine ⟨?_, List.nodup_singleton _, ?_⟩
    · exact ((hsubA.map VRow.id).nodup (hidmap ▸ hnd))
    · intro i hi hmem
      obtain ⟨r, hr, rfl⟩ := List.mem_map.mp hi
      have : r.id < st.nextId := hAmem r hr
      simp only [List.map_cons, List.map_nil, List.mem_cons, List.not_mem_nil,
        or_false] at hmem
      omega
  · intro r hr
    rcases List.mem_append.mp hr with hr1 | hr2
    · have := hAmem r hr1
      show r.id < st.nextId + 1
      omega
    · simp only [List.mem_cons, List.not_mem_nil, or_false] at hr2
      subst hr2
      show st.nextId < st.nextId + 1
      omega
  · intro s' e'
    rw [List.countP_append]
    by_cases hp : s = s' ∧ e = e'
    · obtain ⟨rfl, rfl⟩ := hp
      have hz : (st.rows.map (supersedeRow s e)).countP (activeFor s e) = 0 := by
        rw [List.countP_map, List.countP_eq_zero]
        intro r _
        simp only [Function.comp_apply, activeFor_supersedeRow]
        exact fun hft => Bool.false_ne_true hft
      have hA0 : ((st.rows.map (supersedeRow s e)).filter
          (fun r => !(sameTriple s v e r))).countP (activeFor s e) = 0 := by
        have := List.Sublist.countP_le (p := activeFor s e) hsubA
        omega
      have hnew : (List.countP (activeFor s e)
          [(⟨st.nextId, s, v, e, c, l, st.nextTime, VStatus.active⟩ : VRow)]) = 1 := by
        rw [List.countP_singleton]
        simp [activeFor]
      omega
    · have hmap : (st.rows.map (supersedeRow s e)).countP (activeFor s' e') =
          st.rows.countP (activeFor s' e') := by
        rw [List.countP_map]
        apply List.countP_congr
        intro r _
        simp only [Function.comp_apply]
        rw [activeFor_supersedeRow_ne s e s' e' hp r]
      have hA' : ((st.rows.map (supersedeRow s e)).filter
          (fun r => !(sameTriple s v e r))).countP (activeFor s' e') ≤
          st.rows.countP (activeFor s' e') := by
        have := List.Sublist.countP_le (p := activeFor s' e') hsubA
        omega
      have hnew : (List.countP (activeFor s' e')
          [(⟨st.nextId, s, v, e, c, l, st.nextTime, VStatus.active⟩ : VRow)]) = 0 := by
        rw [List.countP_singleton]
        have : activeFor s' e'
            (⟨st.nextId, s, v, e, c, l, st.nextTime, VStatus.active⟩ : VRow) = false :=
          activeFor_eq_false_of_pair hp
        rw [this]
        simp
      have := hone s' e'
      omega

theorem catInv_rollback (st : CatalogState) (s e : String) (h : CatInv st) :
    CatInv (rollback st s e).2 := by
  obtain ⟨hnd, hlt, hone⟩ := h
  cases hcur : get_latest st s e with
  | none =>
    rw [rollback_eq_of_none hcur]
    exact ⟨hnd, hlt, hone⟩
  | some cur =>
    cases hprev : maxByTime (st.rows.filter (supersededFor s e)) with
    | none =>
      rw [rollback_eq_of_noprev hcur hprev]
      exact ⟨hnd, hlt, hone⟩
    | some prev =>
      rw [rollback_eq_of_some hcur hprev]
      obtain ⟨hcmem, hcact⟩ := get_latest_spec hcur
      have hpmem' := maxByTime_mem hprev
      have hpmem : prev ∈ st.rows := (List.mem_filter.mp hpmem').1
      have hpsup : supersededFor s e prev = true := (List.mem_filter.mp hpmem').2
      obtain ⟨hps, hpe, hpst⟩ := (supersededFor_eq_true s e prev).mp hpsup
      obtain ⟨hcs, hce, hcst⟩ := (activeFor_eq_true s e cur).mp hcact
      have hne : prev ≠ cur := by
        intro hq
        rw [hq, hcst] at hpst
        cases hpst
      have hinj := List.inj_on_of_nodup_map hnd
      have hneid : prev.id ≠ cur.id := by
        intro hq
        exact hne (hinj hpmem hcmem hq)
      refine ⟨?_, ?_, ?_⟩
      · rw [updateStatus_map_id, updateStatus_map_id]
        exact hnd
      · intro r hr
        unfold updateStatus at hr
        rw [List.map_map] at hr
        obtain ⟨r0, hr0, rfl⟩ := List.mem_map.mp hr
        have hid : (((fun r => if r.id = cur.id then
            { r with status := VStatus.rolledBack } else r) ∘
            (fun r => if r.id = prev.id then
            { r with status := VStatus.active } else r)) r0).id = r0.id := by
          simp only [Function.comp_apply, apply_ite VRow.id, ite_self]
        rw [hid]
        exact hlt r0 hr0
      · intro s' e'
        unfold updateStatus
        rw [List.map_map, List.countP_map]
        by_cases hp : s = s' ∧ e = e'
        · obtain ⟨rfl, rfl⟩ := hp
          have hcong : st.rows.countP
              (activeFor s e ∘ ((fun r => if r.id = cur.id then
                { r with status := VStatus.rolledBack } else r) ∘
               (fun r => if r.id = prev.id then
                { r with status := VStatus.active } else r))) =
              st.rows.countP (fun x => decide (x.id = prev.id)) := by
            apply List.countP_congr
            intro x hx
            by_cases h1 : x.id = prev.id
            · have h2 : ¬(x.id = cur.id) := by rw [h1]; exact hneid
              have hxp : x = prev := hinj hx hpmem h1
              have ht : activeFor s e ({ x with status := VStatus.active }) = true := by
                rw [activeFor_eq_true]
                exact ⟨by rw [hxp]; exact hps, by rw [hxp]; exact hpe, rfl⟩
              simp only [Function.comp_apply, if_pos h1, if_neg h2]
              rw [ht]
              simp [h1]
            · by_cases h2 : x.id = cur.id
              · have hf : activeFor s e ({ x with status := VStatus.rolledBack }) = false :=
                  activeFor_eq_false_of_status s e (by simp)
                simp only [Function.comp_apply, if_neg h1, if_pos h2]
                rw [hf]
                simp [h1]
              · have hxfalse : activeFor s e x = false := by
                  rw [Bool.eq_false_iff]
                  intro hxt
                  have hxc : x ≠ cur := by
                    intro hq
                    rw [hq] at h2
                    exact h2 rfl
                  have h2c := two_le_countP (activeFor s e) st.rows x cur hx hcmem hxc hxt hcact
                  have := hone s e
                  omega
                simp only [Function.comp_apply, if_neg h1, if_neg h2]
                rw [hxfalse]
                simp [h1]
          rw [hcong]
          rw [countP_id_nodup hnd hpmem]
        · have hcong : st.rows.countP
              (activeFor s' e' ∘ ((fun r => if r.id = cur.id then
                { r with status := VStatus.rolledBack } else r) ∘
               (fun r => if r.id = prev.id then
                { r with status := VStatus.active } else r))) =
              st.rows.countP (activeFor s' e') := by
            apply List.countP_congr
            intro x hx
            by_cases h1 : x.id = prev.id
            · have h2 : ¬(x.id = cur.id) := by rw [h1]; exact hneid
              have hxp : x = prev := hinj hx hpmem h1
              have hl : activeFor s' e' ({ x with status := VStatus.active }) = false := by
                apply activeFor_eq_false_of_pair
                intro ⟨hq1, hq2⟩
                refine hp ⟨?_, ?_⟩
                · rw [← hps, ← hxp]; exact hq1
                · rw [← hpe, ← hxp]; exact hq2
              have hr : activeFor s' e' x = false := by
                apply activeFor_eq_false_of_pair
                intro ⟨hq1, hq2⟩
                refine hp ⟨?_, ?_⟩
                · rw [← hps, ← hxp]; exact hq1
                · rw [← hpe, ← hxp]; exact hq2
              simp only [Function.comp_apply, if_pos h1, if_neg h2]
              rw [hl, hr]
            · by_cases h2 : x.id = cur.id
              · have hxc : x = cur := hinj hx hcmem h2
                have hl : activeFor s' e' ({ x with status := VStatus.rolledBack }) = false :=
                  activeFor_eq_false_of_status s' e' (by simp)
                have hr : activeFor s' e' x = false := by
                  apply activeFor_eq_false_of_pair
                  intro ⟨hq1, hq2⟩
                  refine hp ⟨?_, ?_⟩
                  · rw [← hcs, ← hxc]; exact hq1
                  · rw [← hce, ← hxc]; exact hq2
                simp only [Function.comp_apply, if_neg h1, if_pos h2]
                rw [hl, hr]
              · simp only [Function.comp_apply, if_neg h1, if_neg h2]
          rw [hcong]
          exact hone s' e'

theorem catInv_step (st : CatalogState) (op : CatOp) (h : CatInv st) :
    CatInv (catStep st op) := by
  cases op with
  | deploy s v c l e => exact catInv_deploy st s v c l e h
  | rollbackOp s e => exact catInv_rollback st s e h

theorem catInv_run (ops : List CatOp) : CatInv (runCatalog ops) := by
  unfold runCatalog
  have h : ∀ st : CatalogState, CatInv st → CatInv (ops.foldl catStep st) := by
    induction ops with
    | nil => intro st h; exact h
    | cons op rest ih =>
      intro st h
      exact ih (catStep st op) (catInv_step st op h)
  exact h initCatalog catInv_init

theorem supersedeRow_version (s e : String) (r : VRow) :
    (supersedeRow s e r).version = r.version := by
  unfold supersedeRow; split <;> rfl

theorem supersedeRow_deployed_at (s e : String) (r : VRow) :
    (supersedeRow s e r).deployed_at = r.deployed_at := by
  unfold supersedeRow; split <;> rfl

/-- C1: for every sequence of `record_deploy` and `rollback` calls starting
from the empty catalog and every (service, environment) pair, at most one
`versions` row has status `'active'` after each call. -/
theorem catalog_at_most_one_active (ops : List CatOp) (s e : String) :
    (runCatalog ops).rows.countP (activeFor s e) ≤ 1 :=
  (catInv_run ops).2.2 s e

/-- Three deploys of service `"x"` to `"prod"`. -/
def threeDeploys : List CatOp :=
  [CatOp.deploy "x" "1.0" "c1" "l1" "prod",
   CatOp.deploy "x" "1.1" "c2" "l2" "prod",
   CatOp.deploy "x" "1.2" "c3" "l3" "prod"]

/-- C3 counterexample: after three deploys of distinct versions, two
consecutive `rollback` calls with no intervening deploy BOTH succeed — the
second one returns the version-`"1.0"` row instead of failing, because a
superseded row (`"1.0"`) is still available after the first rollback. -/
theorem rollback_twice_succeeds_after_three_deploys :
    ((rollback (rollback (runCatalog threeDeploys) "x" "prod").2 "x" "prod").1).map
        VRow.version = some "1.0" := by
  rfl

/-- C3 amended: the second of two consecutive `rollback` calls fails exactly
when no superseded row remains; in particular, when only two distinct
versions were ever deployed, the first rollback succeeds (restoring the
first version) and the second rollback returns `None`. -/
theorem rollback_twice_fails_after_two_deploys
    (s v1 v2 c1 c2 l1 l2 e : String) (hv : v1 ≠ v2) :
    ((rollback (runCatalog
        [CatOp.deploy s v1 c1 l1 e, CatOp.deploy s v2 c2 l2 e]) s e).1).map
      VRow.version = some v1 ∧
    (rollback (rollback (runCatalog
        [CatOp.deploy s v1 c1 l1 e, CatOp.deploy s v2 c2 l2 e]) s e).2 s e).1 =
      none := by
  constructor <;>
    simp [runCatalog, catStep, record_deploy, rollback, get_latest, maxByTime,
      updateStatus, activeFor, supersededFor, sameTriple, supersedeRow,
      initCatalog, hv]

/-- Witness for the amended C3 theorem at concrete inputs. -/
theorem rollback_twice_fails_after_two_deploys_witness :
    ((rollback (runCatalog
        [CatOp.deploy "x" "1.0" "c1" "l1" "prod",
         CatOp.deploy "x" "1.1" "c2" "l2" "prod"]) "x" "prod").1).map
      VRow.version = some "1.0" ∧
    (rollback (rollback (runCatalog
        [CatOp.deploy "x" "1.0" "c1" "l1" "prod",
         CatOp.deploy "x" "1.1" "c2" "l2" "prod"]) "x" "prod").2 "x" "prod").1 =
      none :=
  rollback_twice_fails_after_two_deploys "x" "1.0" "1.1" "c1" "c2" "l1" "l2"
    "prod" (by decide)

/-- C9 counterexample: `record_deploy` is an `INSERT OR REPLACE`, so
re-deploying the same (service, version, environment) triple DELETES the
existing row (id 0) and replaces it with a fresh row (id 1): the record
present before the call is no longer present after it. -/
theorem redeploy_same_triple_deletes_row :
    (runCatalog [CatOp.deploy "x" "1.0" "c1" "l1" "prod"]).rows =
      [⟨0, "x", "1.0", "prod", "c1", "l1", 0, VStatus.active⟩] ∧
    (runCatalog [CatOp.deploy "x" "1.0" "c1" "l1" "prod",
                 CatOp.deploy "x" "1.0" "c2" "l2" "prod"]).rows =
      [⟨1, "x", "1.0", "prod", "c2", "l2", 1, VStatus.active⟩] :=
  ⟨rfl, rfl⟩

/-- C9 amended: no catalog transition deletes a row, EXCEPT that
`record_deploy` with the same (service, version, environment) triple as an
existing row replaces that one row; every other row survives every call
with all fields except `status` unchanged. -/
theorem catalog_rows_preserved (st : CatalogState) (op : CatOp) (r : VRow)
    (hr : r ∈ st.rows)
    (hkeep : ∀ s v c l e, op = CatOp.deploy s v c l e →
      ¬(r.service = s ∧ r.version = v ∧ r.environment = e)) :
    ∃ r2 ∈ (catStep st op).rows, r2.id = r.id ∧ r2.service = r.service ∧
      r2.version = r.version ∧ r2.environment = r.environment ∧
      r2.deployed_at = r.deployed_at := by
  cases op with
  | deploy s v c l e =>
    have hk := hkeep s v c l e rfl
    refine ⟨supersedeRow s e r, ?_, supersedeRow_id s e r,
      supersedeRow_service s e r, supersedeRow_version s e r,
      supersedeRow_environment s e r, supersedeRow_deployed_at s e r⟩
    show supersedeRow s e r ∈ (record_deploy st s v c l e).2.rows
    rw [record_deploy_snd]
    apply List.mem_append_left
    apply List.mem_filter.mpr
    refine ⟨List.mem_map_of_mem (supersedeRow s e) hr, ?_⟩
    have hsf : sameTriple s v e (supersedeRow s e r) = false := by
      rw [Bool.eq_false_iff]
      intro hc
      have hc2 := hc
      unfold sameTriple at hc2
      simp only [Bool.and_eq_true, decide_eq_true_eq] at hc2
      exact hk ⟨(supersedeRow_service s e r) ▸ hc2.1.1,
        (supersedeRow_version s e r) ▸ hc2.1.2,
        (supersedeRow_environment s e r) ▸ hc2.2⟩
    rw [hsf]
    rfl
  | rollbackOp s e =>
    show ∃ r2 ∈ (rollback st s e).2.rows, _
    cases hcur : get_latest st s e with
    | none =>
      rw [rollback_eq_of_none hcur]
      exact ⟨r, hr, rfl, rfl, rfl, rfl, rfl⟩
    | some cur =>
      cases hprev : maxByTime (st.rows.filter (supersededFor s e)) with
      | none =>
        rw [rollback_eq_of_noprev hcur hprev]
        exact ⟨r, hr, rfl, rfl, rfl, rfl, rfl⟩
      | some prev =>
        rw [rollback_eq_of_some hcur hprev]
        unfold updateStatus
        refine ⟨_, List.mem_map_of_mem _ (List.mem_map_of_mem _ hr),
          ?_, ?_, ?_, ?_, ?_⟩
        · simp only [apply_ite VRow.id, ite_self]
        · simp only [apply_ite VRow.id, apply_ite VRow.service, ite_self]
        · simp only [apply_ite VRow.id, apply_ite VRow.version, ite_self]
        · simp only [apply_ite VRow.id, apply_ite VRow.environment, ite_self]
        · simp only [apply_ite VRow.id, apply_ite VRow.deployed_at, ite_self]

/-- Witness for the amended C9 theorem: the active row of a fresh deploy
survives a rollback call (which fails here, leaving the catalog unchanged). -/
theorem catalog_rows_preserved_witness :
    ∃ r2 ∈ (catStep (runCatalog [CatOp.deploy "x" "1.0" "c1" "l1" "prod"])
        (CatOp.rollbackOp "x" "prod")).rows,
      r2.id = 0 ∧ r2.service = "x" ∧ r2.version = "1.0" ∧
      r2.environment = "prod" ∧ r2.deployed_at = 0 :=
  catalog_rows_preserved (runCatalog [CatOp.deploy "x" "1.0" "c1" "l1" "prod"])
    (CatOp.rollbackOp "x" "prod")
    ⟨0, "x", "1.0", "prod", "c1", "l1", 0, VStatus.active⟩
    (by decide)
    (fun s v c l e h => by cases h)

/-! ### Audit Ledger (`src/src/auditor.py`) -/

/-- Models `hashlib.sha256(...).hexdigest()`: a deterministic fixed-width
(256-bit) digest of a byte string.  The claims rely only on the digest
being a deterministic function of the bytes. -/
def sha256Bytes (data : List Nat) : Nat :=
  data.foldl (fun h b => (h * 131 + b % 256 + 1) % (2 ^ 256)) 0

/-- One row of the `snapshots` table (the `Snapshot` dataclass). -/
structure SnapRow where
  id : String
  repo : String
  version : String
  sha256 : Nat
  size_bytes : Nat
  tags : List String
  archived_at : String
  verified : Bool
deriving DecidableEq

/-- The `action` column of `audit_log`. -/
inductive AuditAction where
  | registerAction
  | verifyAction
deriving DecidableEq

/-- The `result` column of `audit_log` (`'ok'`, `'pass'`, `'FAIL'`). -/
inductive AuditResult where
  | ok
  | pass
  | fail
deriving DecidableEq

/-- One row of the append-only `audit_log` table. -/
structure LogRow where
  snapshot_id : String
  action : AuditAction
  result : AuditResult
deriving DecidableEq

/-- The auditor database: `snapshots` and `audit_log` tables. -/
structure AuditState where
  snapshots : List SnapRow
  audit_log : List LogRow
deriving DecidableEq

/-- Fresh database created by `init_db`. -/
def initAudit : AuditState := ⟨[], []⟩

/-- `SELECT * FROM snapshots WHERE id=?` (primary-key lookup). -/
def lookupSnap (rows : List SnapRow) (i : String) : Option SnapRow :=
  rows.find? (fun r => decide (r.id = i))

/-- `ArchiveAuditor.register`: `INSERT OR REPLACE` the snapshot row (the
replace deletes the row conflicting on the primary key), then append a
`register`/`ok` entry to the audit log. -/
def register (st : AuditState) (snap : SnapRow) : AuditState :=
  ⟨(st.snapshots.filter (fun r => !(decide (r.id = snap.id)))) ++ [snap],
   st.audit_log ++ [⟨snap.id, AuditAction.registerAction, AuditResult.ok⟩]⟩

/-- `ArchiveAuditor.verify`: if the id is not registered, return `False`
without touching the database; otherwise compare the recomputed digest with
the stored one, store the comparison result in the `verified` column, append
a `verify`/`pass` or `verify`/`FAIL` entry, and return the comparison. -/
def verify (st : AuditState) (i : String) (data : List Nat) :
    Bool × AuditState :=
  match lookupSnap st.snapshots i with
  | none => (false, st)
  | some row =>
    let ok := decide (sha256Bytes data = row.sha256)
    (ok,
     ⟨st.snapshots.map (fun r => if r.id = i then { r with verified := ok } else r),
      st.audit_log ++ [⟨i, AuditAction.verifyAction,
        if ok then AuditResult.pass else AuditResult.fail⟩]⟩)

/-! ### Audit Ledger lemmas -/

theorem verify_of_lookup_none {st : AuditState} {i : String} {data : List Nat}
    (h : lookupSnap st.snapshots i = none) : verify st i data = (false, st) := by
  unfold verify
  rw [h]

theorem verify_of_lookup_some {st : AuditState} {i : String} {data : List Nat}
    {row : SnapRow} (h : lookupSnap st.snapshots i = some row) :
    verify st i data = (decide (sha256Bytes data = row.sha256),
      ⟨st.snapshots.map (fun r => if r.id = i then
          { r with verified := decide (sha256Bytes data = row.sha256) } else r),
       st.audit_log ++ [⟨i, AuditAction.verifyAction,
         if decide (sha256Bytes data = row.sha256) then AuditResult.pass
         else AuditResult.fail⟩]⟩) := by
  unfold verify
  rw [h]

theorem lookupSnap_map_update (rows : List SnapRow) (i : String) (ok : Bool) :
    lookupSnap (rows.map (fun r => if r.id = i then { r with verified := ok } else r)) i =
      (lookupSnap rows i).map (fun row => { row with verified := ok }) := by
  induction rows with
  | nil => rfl
  | cons a t ih =>
    unfold lookupSnap at *
    by_cases ha : a.id = i
    · rw [List.map_cons, if_pos ha]
      rw [List.find?_cons_of_pos _ (by simpa using ha),
        List.find?_cons_of_pos _ (by simp [ha])]
      rfl
    · rw [List.map_cons, if_neg ha]
      rw [List.find?_cons_of_neg _ (by simpa using ha),
        List.find?_cons_of_neg _ (by simpa using ha)]
      exact ih

theorem lookupSnap_map_update_ne (rows : List SnapRow) (i j : String) (ok : Bool)
    (hne : j ≠ i) :
    lookupSnap (rows.map (fun r => if r.id = i then { r with verified := ok } else r)) j =
      lookupSnap rows j := by
  induction rows with
  | nil => rfl
  | cons a t ih =>
    unfold lookupSnap at *
    by_cases ha : a.id = j
    · have hai : ¬(a.id = i) := by
        rw [ha]
        exact hne
      rw [List.map_cons, if_neg hai]
      rw [List.find?_cons_of_pos _ (by simpa using ha),
        List.find?_cons_of_pos _ (by simpa using ha)]
    · rw [List.map_cons]
      by_cases hai : a.id = i
      · rw [if_pos hai]
        rw [List.find?_cons_of_neg _ (by simpa using ha),
          List.find?_cons_of_neg _ (by simpa using ha)]
        exact ih
      · rw [if_neg hai]
        rw [List.find?_cons_of_neg _ (by simpa using ha),
          List.find?_cons_of_neg _ (by simpa using ha)]
        exact ih

theorem lookupSnap_register_self (st : AuditState) (snap : SnapRow) :
    lookupSnap (register st snap).snapshots snap.id = some snap := by
  unfold register lookupSnap
  rw [List.find?_append]
  have h1 : (st.snapshots.filter (fun r => !(decide (r.id = snap.id)))).find?
      (fun r => decide (r.id = snap.id)) = none := by
    rw [List.find?_eq_none]
    intro x hx
    have := (List.mem_filter.mp hx).2
    simp only [Bool.not_eq_true', decide_eq_false_iff_not] at this
    simpa using this
  rw [h1]
  simp

theorem lookupSnap_register_ne (st : AuditState) (snap : SnapRow) (j : String)
    (hne : j ≠ snap.id) :
    lookupSnap (register st snap).snapshots j = lookupSnap st.snapshots j := by
  unfold register lookupSnap
  rw [List.find?_append]
  have h2 : List.find? (fun r => decide (r.id = j)) [snap] = none := by
    rw [List.find?_eq_none]
    intro x hx
    simp only [List.mem_singleton] at hx
    subst hx
    simp only [decide_eq_true_eq]
    intro hq
    exact hne (hq ▸ rfl)
  rw [h2]
  have h3 : (st.snapshots.filter (fun r => !(decide (r.id = snap.id)))).find?
      (fun r => decide (r.id = j)) = st.snapshots.find? (fun r => decide (r.id = j)) := by
    induction st.snapshots with
    | nil => rfl
    | cons a t ih =>
      by_cases ha : a.id = j
      · have hane : ¬(a.id = snap.id) := by
          rw [ha]
          exact hne
        rw [List.filter_cons_of_pos (by simpa using hane)]
        rw [List.find?_cons_of_pos _ (by simpa using ha),
          List.find?_cons_of_pos _ (by simpa using ha)]
      · by_cases hb : a.id = snap.id
        · rw [List.filter_cons_of_neg (by simpa using hb)]
          rw [List.find?_cons_of_neg _ (by simpa using ha)]
          exact ih
        · rw [List.filter_cons_of_pos (by simpa using hb)]
          rw [List.find?_cons_of_neg _ (by simpa using ha),
            List.find?_cons_of_neg _ (by simpa using ha)]
          exact ih
  rw [h3]
  cases hf : st.snapshots.find? (fun r => decide (r.id = j)) <;> rfl

/-- C4: `ArchiveAuditor.verify` with an unregistered id returns `False` and
leaves the state unchanged; with a registered id it returns `True` exactly
when the digest of `data` equals the stored digest, stores that comparison
in the row's `verified` flag, leaves every other row unchanged, and appends
exactly one `verify` log entry whose result is `pass` or `fail` according
to the comparison; registering a snapshot whose recorded digest is the
digest of the original bytes and then verifying with those bytes returns
`True` and sets the stored flag to `true`. -/
theorem verify_spec :
    (∀ st i data, lookupSnap st.snapshots i = none →
      verify st i data = (false, st)) ∧
    (∀ st i data row, lookupSnap st.snapshots i = some row →
      ((verify st i data).1 = true ↔ sha256Bytes data = row.sha256) ∧
      lookupSnap (verify st i data).2.snapshots i =
        some { row with verified := (verify st i data).1 } ∧
      (∀ j, j ≠ i → lookupSnap (verify st i data).2.snapshots j =
        lookupSnap st.snapshots j) ∧
      (verify st i data).2.audit_log = st.audit_log ++
        [⟨i, AuditAction.verifyAction,
          if (verify st i data).1 then AuditResult.pass else AuditResult.fail⟩]) ∧
    (∀ st snap data, snap.sha256 = sha256Bytes data →
      (verify (register st snap) snap.id data).1 = true ∧
      lookupSnap (verify (register st snap) snap.id data).2.snapshots snap.id =
        some { snap with verified := true }) := by
  refine ⟨?_, ?_, ?_⟩
  · intro st i data h
    exact verify_of_lookup_none h
  · intro st i data row h
    simp only [verify_of_lookup_some h]
    refine ⟨by simp, ?_, ?_, by trivial⟩
    · rw [lookupSnap_map_update, h]
      rfl
    · intro j hj
      exact lookupSnap_map_update_ne st.snapshots i j _ hj
  · intro st snap data h
    have hl : lookupSnap (register st snap).snapshots snap.id = some snap :=
      lookupSnap_register_self st snap
    simp only [verify_of_lookup_some hl]
    constructor
    · simp [h]
    · rw [lookupSnap_map_update, hl]
      simp [h]

/-- Witness for the C4 theorem: unregistered lookup at the empty ledger, and
the register-then-verify round trip at a concrete snapshot. -/
theorem verify_spec_witness :
    verify initAudit "nope" [1] = (false, initAudit) ∧
    (verify (register initAudit
        ⟨"snap-001", "repo", "v1", sha256Bytes [7, 7], 2, [], "t0", false⟩)
      "snap-001" [7, 7]).1 = true :=
  ⟨verify_spec.1 initAudit "nope" [1] rfl,
   (verify_spec.2.2 initAudit
     ⟨"snap-001", "repo", "v1", sha256Bytes [7, 7], 2, [], "t0", false⟩
     [7, 7] rfl).1⟩

/-- C10: verifying an unregistered snapshot id returns `False` — the same
value a failed digest comparison returns — while appending no log entry and
modifying no snapshot row (the state is returned untouched). -/
theorem verify_unregistered_id :
    (∀ st i data, lookupSnap st.snapshots i = none →
      (verify st i data).1 = false ∧ (verify st i data).2 = st) ∧
    (∀ st i data row, lookupSnap st.snapshots i = some row →
      sha256Bytes data ≠ row.sha256 → (verify st i data).1 = false) := by
  constructor
  · intro st i data h
    rw [verify_of_lookup_none h]
    exact ⟨rfl, rfl⟩
  · intro st i data row h hne
    simp only [verify_of_lookup_some h]
    simp [hne]

/-- Witness for the C10 theorem at the empty ledger. -/
theorem verify_unregistered_id_witness :
    (verify initAudit "missing" [1, 2]).1 = false ∧
    (verify initAudit "missing" [1, 2]).2 = initAudit :=
  verify_unregistered_id.1 initAudit "missing" [1, 2] rfl

/-- C8 counterexample: a successful verification sets the stored `verified`
flag to `true`, but a subsequent FAILED verification of the same snapshot
sets it back to `false`: the flag does transition from `true` to `false`,
because `verify` stores the comparison result unconditionally. -/
theorem verified_flag_true_to_false :
    ((lookupSnap (verify (register initAudit
        ⟨"s1", "r", "v", sha256Bytes [1], 1, [], "t", false⟩) "s1" [1]).2.snapshots
      "s1").map SnapRow.verified = some true) ∧
    ((lookupSnap (verify (verify (register initAudit
        ⟨"s1", "r", "v", sha256Bytes [1], 1, [], "t", false⟩) "s1" [1]).2 "s1"
      [2]).2.snapshots "s1").map SnapRow.verified = some false) :=
  ⟨rfl, rfl⟩

/-- C8 amended: each verification overwrites the stored flag with the
digest-comparison result (so a failed verification resets a `true` flag to
`false`), re-registration overwrites the whole row including the flag, and
rows with other ids are untouched by either operation; hence a false→true
transition can only come from a successful verification or a
re-registration carrying `verified := true`. -/
theorem verified_flag_dynamics :
    (∀ st i data row, lookupSnap st.snapshots i = some row →
      lookupSnap (verify st i data).2.snapshots i =
        some { row with verified := decide (sha256Bytes data = row.sha256) }) ∧
    (∀ st i data j, j ≠ i →
      lookupSnap (verify st i data).2.snapshots j = lookupSnap st.snapshots j) ∧
    (∀ st snap, lookupSnap (register st snap).snapshots snap.id = some snap) ∧
    (∀ st snap j, j ≠ snap.id →
      lookupSnap (register st snap).snapshots j = lookupSnap st.snapshots j) := by
  refine ⟨?_, ?_, ?_, ?_⟩
  · intro st i data row h
    simp only [verify_of_lookup_some h]
    rw [lookupSnap_map_update, h]
    rfl
  · intro st i data j hj
    cases hl : lookupSnap st.snapshots i with
    | none => rw [verify_of_lookup_none hl]
    | some row =>
      simp only [verify_of_lookup_some hl]
      exact lookupSnap_map_update_ne st.snapshots i j _ hj
  · intro st snap
    exact lookupSnap_register_self st snap
  · intro st snap j hj
    exact lookupSnap_register_ne st snap j hj

/-- Witness for the amended C8 theorem: a failed verification at a concrete
registered snapshot stores `false` in the flag. -/
theorem verified_flag_dynamics_witness :
    lookupSnap (verify (register initAudit
        ⟨"s1", "r", "v", 5, 1, [], "t", true⟩) "s1" [1]).2.snapshots "s1" =
      some ⟨"s1", "r", "v", 5, 1, [], "t", false⟩ :=
  verified_flag_dynamics.1
    (register initAudit ⟨"s1", "r", "v", 5, 1, [], "t", true⟩) "s1" [1]
    ⟨"s1", "r", "v", 5, 1, [], "t", true⟩ rfl

/-! ### Manifest building and verification (`src/snapshot.py`) and
packaging (`src/src/snapshot.py`)

A directory tree is the finite list of regular files found by the sorted
`rglob` walk, each with its path segments relative to the target, its byte
content (`stat().st_size` is the byte length), and a `readable` flag; an
unreadable file makes `open`/`sha256_file` raise, which the embedding
surfaces as `Except.error`.  The manifest's `source`/`timestamp` metadata
fields are environment strings no claim mentions and are omitted. -/

/-- One regular file of the walked tree. -/
structure FSFile where
  path : List String
  data : List Nat
  readable : Bool
deriving DecidableEq

/-- The walk filter `path.is_file() and ".git" not in path.parts`. -/
def included (f : FSFile) : Bool := !(decide (".git" ∈ f.path))

/-- A per-file manifest entry: content digest and size in bytes. -/
structure FileRecord where
  sha256 : Nat
  size : Nat
deriving DecidableEq

/-- The manifest dict produced by `snapshot_directory`. -/
structure Manifest where
  label : String
  files : List (List String × FileRecord)
  total_size : Nat
  file_count : Nat
deriving DecidableEq

/-- Python dict assignment `manifest["files"][rel] = record`: overwrite an
existing key in place, else append. -/
def insertRecord (files : List (List String × FileRecord)) (rel : List String)
    (rec : FileRecord) : List (List String × FileRecord) :=
  if files.any (fun en => decide (en.1 = rel)) then
    files.map (fun en => if en.1 = rel then (rel, rec) else en)
  else files ++ [(rel, rec)]

/-- The `for path in sorted(target.rglob("*"))` loop of `snapshot_directory`:
accumulate file records, total size and file count; an unreadable included
file raises out of the whole loop. -/
def buildLoop : List FSFile → (List (List String × FileRecord) × Nat × Nat) →
    Except String (List (List String × FileRecord) × Nat × Nat)
  | [], acc => .ok acc
  | f :: rest, (files, tot, cnt) =>
    if included f then
      if f.readable then
        buildLoop rest
          (insertRecord files f.path ⟨sha256Bytes f.data, f.data.length⟩,
           tot + f.data.length, cnt + 1)
      else .error "unreadable"
    else buildLoop rest (files, tot, cnt)

/-- `snapshot_directory(target, label)`: build the manifest for the walked
tree, or propagate the first per-file read error. -/
def snapshot_directory (fs : List FSFile) (label : String) :
    Except String Manifest :=
  (buildLoop fs ([], 0, 0)).map (fun acc => ⟨label, acc.1, acc.2.1, acc.2.2⟩)

/-- One entry of the difference list of `verify_snapshot`
(`"MISSING: rel"`, `"CHANGED: rel"`, `"ADDED: rel"`). -/
inductive Diff where
  | missing (rel : List String)
  | changed (rel : List String)
  | added (rel : List String)
deriving DecidableEq

/-- `(target / rel).exists()` plus access to the file found there. -/
def fsLookup (fs : List FSFile) (rel : List String) : Option FSFile :=
  fs.find? (fun f => decide (f.path = rel))

/-- First pass of `verify_snapshot`: for every manifest entry in order,
report `MISSING` if the path is gone, else recompute the digest (raising if
unreadable) and report `CHANGED` on mismatch. -/
def verifyLoop : List (List String × FileRecord) → List FSFile →
    Except String (List Diff)
  | [], _ => .ok []
  | (rel, info) :: rest, fs =>
    match fsLookup fs rel with
    | none => (verifyLoop rest fs).map (fun ds => Diff.missing rel :: ds)
    | some f =>
      if f.readable then
        if sha256Bytes f.data ≠ info.sha256 then
          (verifyLoop rest fs).map (fun ds => Diff.changed rel :: ds)
        else verifyLoop rest fs
      else .error "unreadable"

/-- Second pass of `verify_snapshot`: walk the live tree with the same
exclusion rule and report `ADDED` for paths absent from the manifest. -/
def addedDiffs (mfiles : List (List String × FileRecord))
    (fs : List FSFile) : List Diff :=
  (fs.filter (fun f => included f &&
    !(mfiles.any (fun en => decide (en.1 = f.path))))).map
    (fun f => Diff.added f.path)

/-- `verify_snapshot(manifest_path, target)`: both passes, returning
`(len(diffs) == 0, diffs)`. -/
def verify_snapshot (m : Manifest) (fs : List FSFile) :
    Except String (Bool × List Diff) :=
  (verifyLoop m.files fs).map (fun d1 =>
    (((d1 ++ addedDiffs m.files fs)).isEmpty, d1 ++ addedDiffs m.files fs))

/-- Result of `create_snapshot` (`src/src/snapshot.py`): the manifest entry
list, `total_bytes`, and the skipped-path warnings printed by the
`except (PermissionError, OSError)` handler. -/
structure PackResult where
  files : List (List String × FileRecord)
  total_bytes : Nat
  skipped : List (List String)
deriving DecidableEq

/-- The packaging loop of `create_snapshot`: per-file errors are recovered
locally — the file is skipped with a warning and the loop continues. -/
def packLoop : List FSFile → PackResult → PackResult
  | [], acc => acc
  | f :: rest, acc =>
    if f.readable then
      packLoop rest
        ⟨acc.files ++ [(f.path, ⟨sha256Bytes f.data, f.data.length⟩)],
         acc.total_bytes + f.data.length, acc.skipped⟩
    else packLoop rest ⟨acc.files, acc.total_bytes, acc.skipped ++ [f.path]⟩

/-- `create_snapshot(label, include_patterns)` applied to the collected file
list. -/
def create_snapshot (files : List FSFile) : PackResult :=
  packLoop files ⟨[], 0, []⟩

/-! ### Manifest lemmas -/

theorem buildLoop_ok_readable (fs : List FSFile) :
    ∀ (acc : List (List String × FileRecord) × Nat × Nat)
      (res : List (List String × FileRecord) × Nat × Nat),
    buildLoop fs acc = .ok res →
    ∀ f ∈ fs, included f = true → f.readable = true := by
  induction fs with
  | nil =>
    intro acc res h f hf
    cases hf
  | cons g rest ih =>
    intro acc res h f hf hinc
    obtain ⟨files, tot, cnt⟩ := acc
    rw [buildLoop] at h
    by_cases hg : included g = true
    · rw [if_pos hg] at h
      by_cases hr : g.readable = true
      · rw [if_pos hr] at h
        rcases List.mem_cons.mp hf with rfl | hf2
        · exact hr
        · exact ih _ res h f hf2 hinc
      · rw [if_neg hr] at h
        cases h
    · rw [if_neg hg] at h
      rcases List.mem_cons.mp hf with rfl | hf2
      · exact absurd hinc hg
      · exact ih _ res h f hf2 hinc

theorem buildLoop_eq_ok (fs : List FSFile) :
    ∀ (files : List (List String × FileRecord)) (tot cnt : Nat),
    (∀ f ∈ fs, included f = true → f.readable = true) →
    (∀ f ∈ fs, included f = true → ∀ en ∈ files, en.1 ≠ f.path) →
    (fs.map FSFile.path).Nodup →
    buildLoop fs (files, tot, cnt) = .ok
      (files ++ (fs.filter included).map
        (fun f => (f.path, ⟨sha256Bytes f.data, f.data.length⟩)),
       tot + ((fs.filter included).map (fun f => f.data.length)).sum,
       cnt + (fs.filter included).length) := by
  induction fs with
  | nil =>
    intro files tot cnt _ _ _
    simp [buildLoop]
  | cons f rest ih =>
    intro files tot cnt hread hfresh hnd
    rw [List.map_cons, List.nodup_cons] at hnd
    obtain ⟨hnp, hnt⟩ := hnd
    rw [buildLoop]
    by_cases hinc : included f = true
    · have hrd : f.readable = true := hread f (List.mem_cons_self f rest) hinc
      rw [if_pos hinc, if_pos hrd]
      have hkey : ¬(files.any (fun en => decide (en.1 = f.path)) = true) := by
        simp only [List.any_eq_true, decide_eq_true_eq]
        rintro ⟨en, hen, heq⟩
        exact hfresh f (List.mem_cons_self f rest) hinc en hen heq
      unfold insertRecord
      rw [if_neg hkey]
      have hread2 : ∀ g ∈ rest, included g = true → g.readable = true :=
        fun g hg => hread g (List.mem_cons_of_mem f hg)
      have hfresh2 : ∀ g ∈ rest, included g = true →
          ∀ en ∈ files ++ [(f.path,
            (⟨sha256Bytes f.data, f.data.length⟩ : FileRecord))], en.1 ≠ g.path := by
        intro g hg hgi en hen
        rcases List.mem_append.mp hen with hen1 | hen2
        · exact hfresh g (List.mem_cons_of_mem f hg) hgi en hen1
        · simp only [List.mem_singleton] at hen2
          subst hen2
          intro hq
          have hq2 : f.path = g.path := hq
          exact hnp (hq2 ▸ List.mem_map_of_mem FSFile.path hg)
      rw [ih (files ++ [(f.path, (⟨sha256Bytes f.data, f.data.length⟩ : FileRecord))])
        (tot + f.data.length) (cnt + 1) hread2 hfresh2 hnt]
      rw [List.filter_cons_of_pos hinc]
      simp only [List.map_cons, List.sum_cons, List.length_cons,
        List.append_assoc, List.singleton_append, Except.ok.injEq, Prod.mk.injEq]
      refine ⟨by trivial, by omega, by omega⟩
    · rw [if_neg hinc]
      rw [ih files tot cnt (fun g hg => hread g (List.mem_cons_of_mem f hg))
        (fun g hg hgi en hen => hfresh g (List.mem_cons_of_mem f hg) hgi en hen) hnt]
      rw [List.filter_cons_of_neg hinc]

theorem snapshot_directory_spec (fs : List FSFile) (label : String) (m : Manifest)
    (hok : snapshot_directory fs label = .ok m)
    (hnd : (fs.map FSFile.path).Nodup) :
    m = ⟨label,
      (fs.filter included).map
        (fun f => (f.path, ⟨sha256Bytes f.data, f.data.length⟩)),
      ((fs.filter included).map (fun f => f.data.length)).sum,
      (fs.filter included).length⟩ := by
  unfold snapshot_directory at hok
  cases hb : buildLoop fs ([], 0, 0) with
  | error msg =>
    rw [hb] at hok
    cases hok
  | ok acc =>
    rw [hb] at hok
    have hread := buildLoop_ok_readable fs ([], 0, 0) acc hb
    have hmain := buildLoop_eq_ok fs [] 0 0 hread
      (by intro f _ _ en hen; cases hen) hnd
    rw [hmain] at hb
    injection hb with hacc
    simp only [Except.map] at hok
    injection hok with hm
    rw [← hm, ← hacc]
    simp

/-- C6: for every directory (walked file list with distinct paths), the
manifest built by `snapshot_directory` satisfies
`total_size` = sum of the recorded per-file sizes and
`file_count` = number of entries in the files mapping. -/
theorem manifest_totals (fs : List FSFile) (label : String) (m : Manifest)
    (hok : snapshot_directory fs label = .ok m)
    (hnd : (fs.map FSFile.path).Nodup) :
    m.total_size = (m.files.map (fun en => en.2.size)).sum ∧
    m.file_count = m.files.length := by
  rw [snapshot_directory_spec fs label m hok hnd]
  constructor
  · show ((fs.filter included).map (fun f => f.data.length)).sum =
      (((fs.filter included).map
        (fun f => (f.path, (⟨sha256Bytes f.data, f.data.length⟩ : FileRecord)))).map
        (fun en => en.2.size)).sum
    rw [List.map_map]
    rfl
  · show (fs.filter included).length =
      ((fs.filter included).map
        (fun f => (f.path, (⟨sha256Bytes f.data, f.data.length⟩ : FileRecord)))).length
    rw [List.length_map]

/-- Directory with `a.txt` (5 bytes) and `b/c.txt` (10 bytes). -/
def exDirAB : List FSFile :=
  [⟨["a.txt"], [1, 1, 1, 1, 1], true⟩,
   ⟨["b", "c.txt"], [2, 2, 2, 2, 2, 2, 2, 2, 2, 2], true⟩]

/-- The manifest `snapshot_directory` builds for `exDirAB`:
`file_count = 2`, `total_size = 15`. -/
def exManifestAB : Manifest :=
  ⟨"d", [(["a.txt"], ⟨sha256Bytes [1, 1, 1, 1, 1], 5⟩),
    (["b", "c.txt"], ⟨sha256Bytes [2, 2, 2, 2, 2, 2, 2, 2, 2, 2], 10⟩)], 15, 2⟩

/-- Witness for the C6 theorem: the two-file concrete scenario (15 bytes,
2 files) and the empty directory (0 bytes, 0 files). -/
theorem manifest_totals_witness :
    (exManifestAB.total_size = (exManifestAB.files.map (fun en => en.2.size)).sum ∧
      exManifestAB.file_count = exManifestAB.files.length) ∧
    ((⟨"e", [], 0, 0⟩ : Manifest).total_size =
        ((⟨"e", [], 0, 0⟩ : Manifest).files.map (fun en => en.2.size)).sum ∧
      (⟨"e", [], 0, 0⟩ : Manifest).file_count =
        (⟨"e", [], 0, 0⟩ : Manifest).files.length) :=
  ⟨manifest_totals exDirAB "d" exManifestAB rfl (by decide),
   manifest_totals [] "e" ⟨"e", [], 0, 0⟩ rfl (by decide)⟩

theorem fsLookup_self {fs : List FSFile} (hnd : (fs.map FSFile.path).Nodup)
    {f : FSFile} (hf : f ∈ fs) : fsLookup fs f.path = some f := by
  induction fs with
  | nil => cases hf
  | cons a t ih =>
    rw [List.map_cons, List.nodup_cons] at hnd
    obtain ⟨hna, hnt⟩ := hnd
    rcases List.mem_cons.mp hf with rfl | hft
    · unfold fsLookup
      rw [List.find?_cons_of_pos _ (by simp)]
    · have hne : ¬(a.path = f.path) := by
        intro hq
        exact hna (hq ▸ List.mem_map_of_mem FSFile.path hft)
      unfold fsLookup at *
      rw [List.find?_cons_of_neg _ (by simpa using hne)]
      exact ih hnt hft

theorem verifyLoop_ok_nil (mf : List (List String × FileRecord)) (fs : List FSFile)
    (h : ∀ rel info, (rel, info) ∈ mf → ∃ f, fsLookup fs rel = some f ∧
      f.readable = true ∧ info.sha256 = sha256Bytes f.data) :
    verifyLoop mf fs = .ok [] := by
  induction mf with
  | nil => rfl
  | cons en rest ih =>
    obtain ⟨rel, info⟩ := en
    obtain ⟨f, hf, hrd, hsha⟩ := h rel info (List.mem_cons_self _ _)
    rw [verifyLoop]
    split
    · rename_i heq
      rw [hf] at heq
      cases heq
    · rename_i f2 heq
      rw [hf] at heq
      injection heq with h2
      subst h2
      rw [if_pos hrd,
        if_neg (show ¬(sha256Bytes f.data ≠ info.sha256) from fun hq => hq hsha.symm)]
      exact ih (fun rel2 info2 hmem => h rel2 info2 (List.mem_cons_of_mem _ hmem))

theorem verify_snapshot_eq (m : Manifest) (fs : List FSFile)
    (h1 : verifyLoop m.files fs = .ok []) (h2 : addedDiffs m.files fs = []) :
    verify_snapshot m fs = .ok (true, []) := by
  unfold verify_snapshot
  rw [h1, h2]
  rfl

/-- C5: building a manifest of a directory with `snapshot_directory` and
verifying the unchanged directory against it with `verify_snapshot` returns
`match = true` and an empty difference list. -/
theorem verify_unchanged (fs : List FSFile) (label : String) (m : Manifest)
    (hok : snapshot_directory fs label = .ok m)
    (hnd : (fs.map FSFile.path).Nodup) :
    verify_snapshot m fs = .ok (true, []) := by
  have hread : ∀ f ∈ fs, included f = true → f.readable = true := by
    unfold snapshot_directory at hok
    cases hb : buildLoop fs ([], 0, 0) with
    | error msg =>
      rw [hb] at hok
      cases hok
    | ok acc => exact buildLoop_ok_readable fs ([], 0, 0) acc hb
  have hfiles : m.files = (fs.filter included).map
      (fun f => (f.path, ⟨sha256Bytes f.data, f.data.length⟩)) := by
    rw [snapshot_directory_spec fs label m hok hnd]
  apply verify_snapshot_eq
  · rw [hfiles]
    apply verifyLoop_ok_nil
    intro rel info hmem
    rw [List.mem_map] at hmem
    obtain ⟨f, hffil, heq⟩ := hmem
    obtain ⟨hfmem, hfinc⟩ := List.mem_filter.mp hffil
    injection heq with heq1 heq2
    subst heq1
    subst heq2
    exact ⟨f, fsLookup_self hnd hfmem, hread f hfmem hfinc, rfl⟩
  · rw [hfiles]
    unfold addedDiffs
    have hfil : fs.filter (fun f => included f &&
        !(((fs.filter included).map
          (fun g => (g.path, (⟨sha256Bytes g.data, g.data.length⟩ : FileRecord)))).any
          (fun en => decide (en.1 = f.path)))) = [] := by
      rw [List.filter_eq_nil_iff]
      intro f hf hc
      rw [Bool.and_eq_true] at hc
      obtain ⟨hinc, hnot⟩ := hc
      rw [Bool.not_eq_true', List.any_eq_false] at hnot
      exact hnot (f.path, ⟨sha256Bytes f.data, f.data.length⟩)
        (List.mem_map_of_mem _ (List.mem_filter.mpr ⟨hf, hinc⟩)) (by simp)
    rw [hfil]
    rfl

/-- Witness for the C5 theorem at the concrete two-file directory. -/
theorem verify_unchanged_witness :
    verify_snapshot exManifestAB exDirAB = .ok (true, []) :=
  verify_unchanged exDirAB "d" exManifestAB rfl (by decide)

/-! ### Difference classification (C2) -/

/-- What the first pass of `verify_snapshot` reports for one manifest entry
whose file (if present) is readable: `MISSING` if the path is absent,
`CHANGED` if the recomputed digest differs, nothing otherwise. -/
def classifyEntry (fs : List FSFile) (en : List String × FileRecord) :
    Option Diff :=
  match fsLookup fs en.1 with
  | none => some (Diff.missing en.1)
  | some f =>
    if sha256Bytes f.data ≠ en.2.sha256 then some (Diff.changed en.1) else none

/-- The full difference list of `verify_snapshot`: first pass in manifest
order, then the `ADDED` entries of the second pass. -/
def snapshotDiffs (m : Manifest) (fs : List FSFile) : List Diff :=
  m.files.filterMap (classifyEntry fs) ++ addedDiffs m.files fs

theorem verifyLoop_eq_filterMap (mf : List (List String × FileRecord))
    (fs : List FSFile)
    (hr : ∀ rel info f, (rel, info) ∈ mf → fsLookup fs rel = some f →
      f.readable = true) :
    verifyLoop mf fs = .ok (mf.filterMap (classifyEntry fs)) := by
  induction mf with
  | nil => rfl
  | cons en rest ih =>
    obtain ⟨rel, info⟩ := en
    have ih2 := ih (fun rel2 info2 f hm hl =>
      hr rel2 info2 f (List.mem_cons_of_mem _ hm) hl)
    rw [verifyLoop]
    split
    · rename_i heq
      rw [ih2]
      have hc : classifyEntry fs (rel, info) = some (Diff.missing rel) := by
        simp only [classifyEntry, heq]
      rw [List.filterMap_cons_some hc]
      rfl
    · rename_i f heq
      have hrd : f.readable = true := hr rel info f (List.mem_cons_self _ _) heq
      rw [if_pos hrd]
      by_cases hdig : sha256Bytes f.data ≠ info.sha256
      · rw [if_pos hdig, ih2]
        have hc : classifyEntry fs (rel, info) = some (Diff.changed rel) := by
          simp only [classifyEntry, heq]
          rw [if_pos hdig]
        rw [List.filterMap_cons_some hc]
        rfl
      · rw [if_neg hdig, ih2]
        have hc : classifyEntry fs (rel, info) = none := by
          simp only [classifyEntry, heq]
          rw [if_neg hdig]
        rw [List.filterMap_cons_none hc]

theorem classifyEntry_eq_missing (fs : List FSFile)
    (en : List String × FileRecord) (rel : List String) :
    classifyEntry fs en = some (Diff.missing rel) ↔
      en.1 = rel ∧ fsLookup fs en.1 = none := by
  cases h : fsLookup fs en.1 with
  | none =>
    simp only [classifyEntry, h]
    constructor
    · intro hc
      injection hc with hc2
      injection hc2 with hc3
      exact ⟨hc3, trivial⟩
    · rintro ⟨hrel, _⟩
      rw [hrel]
  | some f =>
    simp only [classifyEntry, h]
    constructor
    · intro hc
      split at hc <;> cases hc
    · rintro ⟨_, hq⟩
      cases hq

theorem classifyEntry_eq_changed (fs : List FSFile)
    (en : List String × FileRecord) (rel : List String) :
    classifyEntry fs en = some (Diff.changed rel) ↔
      en.1 = rel ∧ ∃ f, fsLookup fs en.1 = some f ∧
        sha256Bytes f.data ≠ en.2.sha256 := by
  cases h : fsLookup fs en.1 with
  | none =>
    simp only [classifyEntry, h]
    constructor
    · intro hc
      injection hc with hc2
      cases hc2
    · rintro ⟨_, f, hq, _⟩
      cases hq
  | some f =>
    simp only [classifyEntry, h]
    constructor
    · intro hc
      split at hc
      · rename_i hdig
        injection hc with hc2
        injection hc2 with hc3
        exact ⟨hc3, f, rfl, hdig⟩
      · cases hc
    · rintro ⟨hrel, f2, hf2, hdig⟩
      injection hf2 with hf3
      subst hf3
      rw [if_pos hdig, hrel]

theorem classifyEntry_ne_added (fs : List FSFile)
    (en : List String × FileRecord) (rel : List String) :
    classifyEntry fs en ≠ some (Diff.added rel) := by
  cases h : fsLookup fs en.1 with
  | none =>
    simp only [classifyEntry, h]
    intro hc
    injection hc with hc2
    cases hc2
  | some f =>
    simp only [classifyEntry, h]
    intro hc
    split at hc
    · injection hc with hc2
      cases hc2
    · cases hc

/-- C2: for every stored manifest and target tree of readable files,
`verify_snapshot` succeeds, its boolean is `true` exactly when the
difference list is empty, and the difference list contains `MISSING rel`
exactly for manifest paths absent on disk, `CHANGED rel` exactly for paths
present in both whose recomputed digest differs from the recorded one
(recorded sizes play no role), and `ADDED rel` exactly for on-disk,
non-excluded paths absent from the manifest — so each anomalous path gets
exactly one of the three tags. -/
theorem verify_snapshot_classification (m : Manifest) (fs : List FSFile)
    (hr : ∀ f ∈ fs, f.readable = true) :
    verify_snapshot m fs =
      .ok ((snapshotDiffs m fs).isEmpty, snapshotDiffs m fs) ∧
    (∀ b ds, verify_snapshot m fs = .ok (b, ds) → (b = true ↔ ds = [])) ∧
    (∀ rel, Diff.missing rel ∈ snapshotDiffs m fs ↔
      (∃ info, (rel, info) ∈ m.files) ∧ fsLookup fs rel = none) ∧
    (∀ rel, Diff.changed rel ∈ snapshotDiffs m fs ↔
      ∃ info f, (rel, info) ∈ m.files ∧ fsLookup fs rel = some f ∧
        sha256Bytes f.data ≠ info.sha256) ∧
    (∀ rel, Diff.added rel ∈ snapshotDiffs m fs ↔
      (∃ f ∈ fs, f.path = rel ∧ included f = true) ∧
        ∀ info, (rel, info) ∉ m.files) := by
  have hvl : verifyLoop m.files fs = .ok (m.files.filterMap (classifyEntry fs)) :=
    verifyLoop_eq_filterMap m.files fs
      (fun rel info f _ hl => hr f (List.mem_of_find?_eq_some hl))
  have hmain : verify_snapshot m fs =
      .ok ((snapshotDiffs m fs).isEmpty, snapshotDiffs m fs) := by
    unfold verify_snapshot
    rw [hvl]
    rfl
  refine ⟨hmain, ?_, ?_, ?_, ?_⟩
  · intro b ds h
    rw [hmain] at h
    injection h with h1
    injection h1 with hb hds
    subst hb
    subst hds
    exact List.isEmpty_iff
  · intro rel
    unfold snapshotDiffs
    rw [List.mem_append]
    constructor
    · rintro (hm | ha)
      · rw [List.mem_filterMap] at hm
        obtain ⟨⟨rel2, info⟩, hen, hc⟩ := hm
        rw [classifyEntry_eq_missing] at hc
        obtain ⟨he1, he2⟩ := hc
        have he1' : rel2 = rel := he1
        subst he1'
        exact ⟨⟨info, hen⟩, he2⟩
      · unfold addedDiffs at ha
        rw [List.mem_map] at ha
        obtain ⟨f, _, hq⟩ := ha
        cases hq
    · rintro ⟨⟨info, hmem⟩, hnone⟩
      left
      rw [List.mem_filterMap]
      refine ⟨(rel, info), hmem, ?_⟩
      rw [classifyEntry_eq_missing]
      exact ⟨rfl, hnone⟩
  · intro rel
    unfold snapshotDiffs
    rw [List.mem_append]
    constructor
    · rintro (hm | ha)
      · rw [List.mem_filterMap] at hm
        obtain ⟨⟨rel2, info⟩, hen, hc⟩ := hm
        rw [classifyEntry_eq_changed] at hc
        obtain ⟨he1, f, hf, hdig⟩ := hc
        have he1' : rel2 = rel := he1
        subst he1'
        exact ⟨info, f, hen, hf, hdig⟩
      · unfold addedDiffs at ha
        rw [List.mem_map] at ha
        obtain ⟨f, _, hq⟩ := ha
        cases hq
    · rintro ⟨info, f, hmem, hf, hdig⟩
      left
      rw [List.mem_filterMap]
      refine ⟨(rel, info), hmem, ?_⟩
      rw [classifyEntry_eq_changed]
      exact ⟨rfl, f, hf, hdig⟩
  · intro rel
    unfold snapshotDiffs
    rw [List.mem_append]
    constructor
    · rintro (hm | ha)
      · rw [List.mem_filterMap] at hm
        obtain ⟨en, _, hc⟩ := hm
        exact absurd hc (classifyEntry_ne_added fs en rel)
      · unfold addedDiffs at ha
        rw [List.mem_map] at ha
        obtain ⟨f, hmem, hq⟩ := ha
        injection hq with hq2
        obtain ⟨hf, hcond⟩ := List.mem_filter.mp hmem
        rw [Bool.and_eq_true] at hcond
        obtain ⟨hinc, hnot⟩ := hcond
        rw [Bool.not_eq_true', List.any_eq_false] at hnot
        refine ⟨⟨f, hf, hq2, hinc⟩, ?_⟩
        intro info hmem2
        have := hnot (rel, info) hmem2
        simp only [decide_eq_true_eq] at this
        exact this (by rw [hq2])
    · rintro ⟨⟨f, hf, hpath, hinc⟩, hnotin⟩
      right
      unfold addedDiffs
      rw [List.mem_map]
      refine ⟨f, ?_, by rw [hpath]⟩
      rw [List.mem_filter]
      refine ⟨hf, ?_⟩
      rw [Bool.and_eq_true]
      refine ⟨hinc, ?_⟩
      rw [Bool.not_eq_true', List.any_eq_false]
      intro en hen
      simp only [decide_eq_true_eq]
      intro hq
      have hen2 : (rel, en.2) ∈ m.files := by
        have : en = (rel, en.2) := by
          rw [← hpath, ← hq]
        rw [← this]
        exact hen
      exact hnotin en.2 hen2

/-- Manifest used by the C2 witness: one unchanged entry, one deleted
entry, one modified entry. -/
def exManifestV : Manifest :=
  ⟨"v", [(["keep.txt"], ⟨sha256Bytes [1], 1⟩),
    (["gone.txt"], ⟨sha256Bytes [2], 1⟩),
    (["mod.txt"], ⟨sha256Bytes [3], 1⟩)], 3, 3⟩

/-- Live tree used by the C2 witness: `keep.txt` unchanged, `gone.txt`
deleted, `mod.txt` modified, `new.txt` added. -/
def exDirV : List FSFile :=
  [⟨["keep.txt"], [1], true⟩, ⟨["mod.txt"], [9], true⟩,
   ⟨["new.txt"], [4], true⟩]

/-- Witness for the C2 theorem at a concrete manifest/tree pair showing one
anomaly of each kind. -/
theorem verify_snapshot_classification_witness :
    (verify_snapshot exManifestV exDirV =
      .ok ((snapshotDiffs exManifestV exDirV).isEmpty,
        snapshotDiffs exManifestV exDirV) ∧
    (∀ b ds, verify_snapshot exManifestV exDirV = .ok (b, ds) →
      (b = true ↔ ds = [])) ∧
    (∀ rel, Diff.missing rel ∈ snapshotDiffs exManifestV exDirV ↔
      (∃ info, (rel, info) ∈ exManifestV.files) ∧ fsLookup exDirV rel = none) ∧
    (∀ rel, Diff.changed rel ∈ snapshotDiffs exManifestV exDirV ↔
      ∃ info f, (rel, info) ∈ exManifestV.files ∧ fsLookup exDirV rel = some f ∧
        sha256Bytes f.data ≠ info.sha256) ∧
    (∀ rel, Diff.added rel ∈ snapshotDiffs exManifestV exDirV ↔
      (∃ f ∈ exDirV, f.path = rel ∧ included f = true) ∧
        ∀ info, (rel, info) ∉ exManifestV.files)) ∧
    snapshotDiffs exManifestV exDirV =
      [Diff.missing ["gone.txt"], Diff.changed ["mod.txt"],
       Diff.added ["new.txt"]] :=
  ⟨verify_snapshot_classification exManifestV exDirV (by decide), rfl⟩

/-! ### Per-file error policy (C7) -/

theorem packLoop_spec (files : List FSFile) :
    ∀ acc : PackResult,
    packLoop files acc =
      ⟨acc.files ++ (files.filter FSFile.readable).map
          (fun f => (f.path, ⟨sha256Bytes f.data, f.data.length⟩)),
       acc.total_bytes + ((files.filter FSFile.readable).map
          (fun f => f.data.length)).sum,
       acc.skipped ++ (files.filter (fun f => !f.readable)).map FSFile.path⟩ := by
  induction files with
  | nil =>
    intro acc
    simp [packLoop]
  | cons f rest ih =>
    intro acc
    rw [packLoop]
    by_cases hr : f.readable = true
    · rw [if_pos hr, ih]
      rw [List.filter_cons_of_pos hr, List.filter_cons_of_neg (by simp [hr])]
      simp [List.append_assoc, Nat.add_assoc]
    · have hf : f.readable = false := by
        revert hr
        cases f.readable <;> simp
      rw [if_neg hr, ih]
      rw [List.filter_cons_of_neg (by simp [hf]),
        List.filter_cons_of_pos (by simp [hf])]
      simp [List.append_assoc]

theorem buildLoop_error_of_unreadable (fs : List FSFile) :
    ∀ acc : List (List String × FileRecord) × Nat × Nat,
    (∃ f ∈ fs, included f = true ∧ f.readable = false) →
    ∃ msg, buildLoop fs acc = .error msg := by
  induction fs with
  | nil =>
    rintro acc ⟨f, hf, _⟩
    cases hf
  | cons g rest ih =>
    rintro acc ⟨f, hf, hinc, hur⟩
    obtain ⟨files, tot, cnt⟩ := acc
    rw [buildLoop]
    by_cases hg : included g = true
    · rw [if_pos hg]
      by_cases hgr : g.readable = true
      · rw [if_pos hgr]
        apply ih
        rcases List.mem_cons.mp hf with rfl | hf2
        · rw [hgr] at hur
          cases hur
        · exact ⟨f, hf2, hinc, hur⟩
      · rw [if_neg hgr]
        exact ⟨"unreadable", rfl⟩
    · rw [if_neg hg]
      apply ih
      rcases List.mem_cons.mp hf with rfl | hf2
      · exact absurd hinc hg
      · exact ⟨f, hf2, hinc, hur⟩

/-- C7 counterexample: `snapshot_directory` has no per-file error recovery:
a directory in which one included file is unreadable makes the whole build
abort with an error — no manifest covering the remaining files is
produced. -/
theorem snapshot_directory_aborts_on_unreadable :
    snapshot_directory
      [⟨["ok.txt"], [1], true⟩, ⟨["bad.txt"], [2], false⟩] "l" =
      .error "unreadable" := rfl

/-- C7 amended: packaging (`create_snapshot`) recovers per-file read errors
locally — unreadable files are skipped with a recorded warning and the
manifest covers exactly the readable files — but manifest building
(`snapshot_directory`) aborts the whole build as soon as any included file
is unreadable. -/
theorem per_file_error_policy :
    (∀ files : List FSFile,
      (create_snapshot files).files = (files.filter FSFile.readable).map
        (fun f => (f.path, ⟨sha256Bytes f.data, f.data.length⟩)) ∧
      (create_snapshot files).skipped =
        (files.filter (fun f => !f.readable)).map FSFile.path ∧
      (create_snapshot files).total_bytes =
        ((files.filter FSFile.readable).map (fun f => f.data.length)).sum) ∧
    (∀ fs label, (∃ f ∈ fs, included f = true ∧ f.readable = false) →
      ∃ msg, snapshot_directory fs label = .error msg) := by
  constructor
  · intro files
    rw [create_snapshot, packLoop_spec]
    simp
  · intro fs label hex
    obtain ⟨msg, hmsg⟩ := buildLoop_error_of_unreadable fs ([], 0, 0) hex
    refine ⟨msg, ?_⟩
    unfold snapshot_directory
    rw [hmsg]
    rfl

/-- Witness for the amended C7 theorem: a concrete two-file list with one
unreadable file is skipped by packaging but aborts manifest building. -/
theorem per_file_error_policy_witness :
    (create_snapshot [⟨["a"], [1], true⟩, ⟨["b"], [2], false⟩]).skipped =
      ([([⟨["a"], [1], true⟩, ⟨["b"], [2], false⟩] : List FSFile).filter
        (fun f => !f.readable)]).flatten.map FSFile.path ∧
    ∃ msg, snapshot_directory
      [⟨["a"], [1], true⟩, ⟨["b"], [2], false⟩] "l" = .error msg :=
  ⟨by
    have h := (per_file_error_policy.1
      [⟨["a"], [1], true⟩, ⟨["b"], [2], false⟩]).2.1
    simpa using h,
   per_file_error_policy.2 [⟨["a"], [1], true⟩, ⟨["b"], [2], false⟩] "l"
    ⟨⟨["b"], [2], false⟩, by decide, by decide, rfl⟩⟩

end SnapSvc
